import Mathlib

/-!
Shallow embedding of the translation engine of the gemini-openai-proxy
gateway: model routing, chat-message-to-backend-turn conversion, history
patching, non-streaming response translation, streaming response
translation, and error mapping, together with theorems settling the
specification claims about them.
-/

namespace GeminiProxy

/-! ## Model name constants

Mirrors the constants of `models.go` and the `go-openai` model name
constants used by the routing code. -/

def Gemini1Dot5Pro : String := "gemini-1.5-pro-latest"

def Gemini1Dot5Flash : String := "gemini-1.5-flash-002"

def Gemini1Dot5ProV : String := "gemini-1.0-pro-vision-latest"

def Gemini2FlashExp : String := "gemini-2.0-flash-exp"

def TextEmbedding004 : String := "text-embedding-004"

def GPT4VisionPreview : String := "gpt-4-vision-preview"

def GPT4TurboPreview : String := "gpt-4-turbo-preview"

def GPT4Turbo1106 : String := "gpt-4-1106-preview"

def GPT4Turbo0125 : String := "gpt-4-0125-preview"

def GPT4 : String := "gpt-4"

def GPT4o : String := "gpt-4o"

def GPT3Dot5Turbo : String := "gpt-3.5-turbo"

def AdaEmbeddingV2 : String := "text-embedding-ada-002"

/-! ## Model Router (`models.go`) -/

/-- Embeds Go `strings.HasPrefix p s` as a computation on the character
lists of the two strings (kernel-reducible, unlike `String.startsWith`). -/
def strHasPre (s p : String) : Bool :=
  p.data.isPrefixOf s.data

/-- Embeds `ConvertModel`: the ordered rule list mapping an outward
(OpenAI-style) model name to a backend (Gemini) model name. -/
def convertModel (m : String) : String :=
  if m = GPT4VisionPreview then Gemini1Dot5ProV
  else if m = GPT4TurboPreview ∨ m = GPT4Turbo1106 ∨ m = GPT4Turbo0125 then Gemini1Dot5Pro
  else if strHasPre m GPT4 then Gemini1Dot5Flash
  else if m = AdaEmbeddingV2 then TextEmbedding004
  else if m = GPT4o then Gemini2FlashExp
  else Gemini1Dot5Flash

/-- Embeds `GetMappedModel`: maps a backend model name back to an outward
model name when model mapping is enabled (`useMapping = true` embeds
`USE_MODEL_MAPPING`). -/
def getMappedModel (useMapping : Bool) (g : String) : String :=
  if !useMapping then g
  else if g = Gemini1Dot5Pro then GPT4TurboPreview
  else if g = Gemini1Dot5Flash then GPT4
  else if g = Gemini2FlashExp then GPT4o
  else if g = TextEmbedding004 then AdaEmbeddingV2
  else GPT3Dot5Turbo

/-- The hardcoded fallback model list used when the discovered model list is
empty (`IsValidGeminiModel`, `GetAvailableGeminiModels`). -/
def defaultGeminiModels : List String :=
  [Gemini1Dot5Pro, Gemini1Dot5Flash, Gemini1Dot5ProV, Gemini2FlashExp, TextEmbedding004]

/-- Embeds `IsValidGeminiModel`; `models` stands for the package-global
`GeminiModels` slice of discovered models. -/
def isValidGeminiModel (models : List String) (m : String) : Bool :=
  if models.isEmpty then
    m = Gemini1Dot5Pro ∨ m = Gemini1Dot5Flash ∨ m = Gemini1Dot5ProV ∨
      m = Gemini2FlashExp ∨ m = TextEmbedding004
  else
    models.contains m

/-- The model list actually consulted by `IsValidGeminiModel`: the
discovered list, or the default fallback when nothing was discovered. -/
def effectiveModels (models : List String) : List String :=
  if models.isEmpty then defaultGeminiModels else models

/-- Embeds `ParseModelWithoutMapping`; `env` stands for the value of the
`GPT_4_VISION_PREVIEW` environment variable (empty when unset). -/
def parseModelWithoutMapping (env : String) (models : List String) (m : String) : String :=
  if m = Gemini1Dot5ProV then
    if env = Gemini1Dot5Pro then Gemini1Dot5Pro else Gemini1Dot5Flash
  else if isValidGeminiModel models m then m
  else Gemini1Dot5Flash

/-- Embeds `GetModel` (used by `ModelListHandler` to build the published
model list). -/
def getModel (useMapping : Bool) (m : String) : String :=
  if useMapping then m else convertModel m

/-- The outward model ids published by `ModelListHandler` when model mapping
is enabled. -/
def publishedModelIds : List String :=
  [getModel true GPT3Dot5Turbo, getModel true GPT4, getModel true GPT4TurboPreview,
   getModel true GPT4VisionPreview, getModel true AdaEmbeddingV2, getModel true GPT4o]

/-! ## Content Converter (`struct.go` and `chat.go`) -/

def genaiRoleUser : String := "user"

def genaiRoleModel : String := "model"

/-- A chat message after its content has been parsed to a plain string
(the `stringContent` step of `toStringGenaiContent`; a message whose
content fails to parse aborts the whole conversion and produces no turn
list at all). -/
structure Msg where
  role : String
  content : String
deriving DecidableEq, Repr

/-- A backend turn (`genai.Content`) as built by `toStringGenaiContent`:
a role plus an ordered list of text parts (that function only ever
creates `genai.Text` parts). -/
structure GContent where
  role : String
  parts : List String
deriving DecidableEq, Repr

/-- The synthetic empty model turn synthesized after a system message and
by the history patching. -/
def fillerModelTurn : GContent :=
  { role := genaiRoleModel, parts := [""] }

/-- Embeds `toStringGenaiContent`: role switch producing the backend turn
list. A system message expands to a user turn followed by a synthetic
empty model turn; assistant becomes a model turn; user becomes a user
turn; any other role is skipped (the Go switch has no default case). -/
def toStringGenaiContent : List Msg → List GContent
  | [] => []
  | m :: rest =>
    let tail := toStringGenaiContent rest
    if m.role = "system" then
      { role := genaiRoleUser, parts := [m.content] } :: fillerModelTurn :: tail
    else if m.role = "assistant" then
      { role := genaiRoleModel, parts := [m.content] } :: tail
    else if m.role = "user" then
      { role := genaiRoleUser, parts := [m.content] } :: tail
    else
      tail

/-- Embeds `setGenaiChatHistory`: all turns but the last become the chat
history, and if the history is nonempty and does not end with a model
turn, one synthetic empty model turn is appended. -/
def setGenaiChatHistory (contents : List GContent) : List GContent :=
  let h := if contents.length > 1 then contents.dropLast else []
  match h.getLast? with
  | some c => if c.role ≠ genaiRoleModel then h ++ [fillerModelTurn] else h
  | none => h

/-- The parts of the final converted turn, which `GenerateContent` sends
via `SendMessage` as the live prompt (the backend wraps them in a
user-role turn); the Go code indexes `messages[len(messages)-1]` and is
only reached with a nonempty list. -/
def liveParts (contents : List GContent) : List String :=
  match contents.getLast? with
  | some c => c.parts
  | none => []

/-- The full sequence of backend turns for one request: the patched
history followed by the live prompt as a user turn. -/
def fullTurns (msgs : List Msg) : List GContent :=
  let conv := toStringGenaiContent msgs
  setGenaiChatHistory conv ++ [{ role := genaiRoleUser, parts := liveParts conv }]

/-- Strict role alternation of a turn list: no two consecutive turns share
the same role. -/
def rolesAlternate : List GContent → Bool
  | [] => true
  | [_] => true
  | a :: b :: rest => a.role ≠ b.role && rolesAlternate (b :: rest)

/-! ## Error Mapper (`handleGenerateContentError` in `handler.go`) -/

/-- The outward error body (`openai.APIError`). Its Go `Code` field has
type `any`; the handler extracts an `int` from it when possible, so it is
embedded as an optional integer. -/
structure APIErrorBody where
  code : Option Int
  message : String
  errType : String
deriving DecidableEq, Repr

/-- The classes of error values the handler distinguishes, in the order it
tests them: an already-outward-shaped `openai.APIError`, a backend-vendor
`googleapi.Error` with its numeric HTTP status, and everything else
(carrying only its error text). -/
inductive UpstreamErr where
  | apiError (body : APIErrorBody)
  | googleError (code : Int) (message : String)
  | otherError (message : String)
deriving DecidableEq, Repr

/-- Embeds `handleGenerateContentError`: classifies the error and returns
the HTTP status code plus the outward error body it writes. -/
def handleGenerateContentError : UpstreamErr → Int × APIErrorBody
  | .apiError body =>
    (match body.code with
     | some c => c
     | none => 500, body)
  | .googleError code msg =>
    if code = 429 then
      (429, { code := some 429, message := "Rate limit exceeded", errType := "rate_limit_error" })
    else
      (code, { code := some code, message := msg, errType := "server_error" })
  | .otherError msg =>
    (500, { code := some 500, message := msg, errType := "server_error" })

/-! ## StringArray.UnmarshalJSON (`struct.go`) -/

/-- Embeds `StringArray.UnmarshalJSON`. The two `json.Unmarshal` calls it
delegates to are abstract parameters (total Go functions returning a value
or an error); bytes are embedded as `Nat` (91 is the code of the opening
bracket). The result is `none` exactly when the Go code panics: it indexes
`data[0]` before checking that `data` is nonempty, which on an empty slice
is an out-of-bounds access. -/
def unmarshalStringArray (parseArr : List Nat → Except String (List String))
    (parseStr : List Nat → Except String String) (data : List Nat) :
    Option (Except String (List String)) :=
  match data with
  | [] => none
  | b :: _ =>
    if b = 91 then
      some (parseArr data)
    else
      some ((parseStr data).map (fun str => [str]))

/-! ## Backend responses and finish reasons (`genai` types as used by `chat.go`) -/

/-- The `genai.FinishReason` enumeration; the code compares it numerically
(`FinishReason > genai.FinishReasonStop`), so `val` carries the Go
constant values 0..5. -/
inductive FinishReason where
  | unspecified
  | stop
  | maxTokens
  | safety
  | recitation
  | other
deriving DecidableEq, Repr

def FinishReason.val : FinishReason → Nat
  | .unspecified => 0
  | .stop => 1
  | .maxTokens => 2
  | .safety => 3
  | .recitation => 4
  | .other => 5

/-- Embeds `convertFinishReason`. -/
def convertFinishReason (r : FinishReason) : String :=
  match r with
  | .maxTokens => "length"
  | .safety => "content_filter"
  | .recitation => "content_filter"
  | _ => "stop"

/-- A backend content part as consumed by the response translators. Text is
kept as a character list because the stream translator walks it character
by character; `args` of a function call stands for the JSON-marshaled
argument payload. -/
inductive GPart where
  | text (s : List Char)
  | functionCall (name : String) (args : String)
deriving DecidableEq, Repr

/-- A backend candidate; `content = none` embeds a nil `Content` pointer. -/
structure Candidate where
  content : Option (List GPart)
  finishReason : FinishReason
deriving DecidableEq, Repr

/-- A backend `GenerateContentResponse`; `usage` embeds the optional
`UsageMetadata` as (prompt, candidates, total) token counts. -/
structure GenResponse where
  candidates : List Candidate
  usage : Option (Nat × Nat × Nat)
deriving DecidableEq, Repr

/-- An outward tool call entry (`openai.ToolCall`): its id is the function
name joined with the part index, its `args` the re-marshaled arguments. -/
structure ToolCall where
  index : Nat
  id : String
  name : String
  args : String
deriving DecidableEq, Repr

/-! ## Stream Translator (`handleStreamIter` in `chat.go`) -/

/-- The delta payload of one streamed choice: either plain text or the
serialized tool-call list (kept structured rather than as its JSON
encoding). -/
inductive DeltaContent where
  | text (s : List Char)
  | toolCalls (calls : List ToolCall)
deriving DecidableEq, Repr

structure ChunkChoice where
  index : Nat
  delta : DeltaContent
  finishReason : Option String
deriving DecidableEq, Repr

/-- One payload written to the stream channel: a completion chunk
(`CompletionResponse` with object tag `chat.completion.chunk`) or a
marshaled `openai.APIError`. -/
inductive Chunk where
  | completion (id object : String) (created : Int) (model : String) (choices : List ChunkChoice)
  | apiError (code : Int) (message errType : String)
deriving DecidableEq, Repr

/-- How the backend increment stream ends: normally (`iterator.Done`) or
with one of the three error classes `handleStreamIter` distinguishes. -/
inductive IterEnd where
  | done
  | errCanceled
  | errRateLimit
  | errOther (msg : String)
deriving DecidableEq, Repr

/-- The per-stream identifiers fixed at stream start: the model mapping
flag, the backend model name, the UUID drawn once, and the timestamp taken
once. -/
structure StreamCtx where
  useMapping : Bool
  model : String
  respID : String
  created : Int
deriving DecidableEq, Repr

/-- The mutable state of the stream loop: the text buffer and the
character counter of the character-by-character policy. -/
structure StreamAcc where
  buffer : List Char
  charCount : Nat
deriving DecidableEq, Repr

/-- The fixed character budget of the character-by-character policy. -/
def sentenceLength : Nat := 1000

/-- Builds the completion chunk shape shared by `sendCharacter`,
`sendFullText` and the finish-reason chunk of `handleStreamIter`. -/
def mkTextChunk (ctx : StreamCtx) (s : List Char) (fr : Option String) : Chunk :=
  .completion ("chatcmpl-" ++ ctx.respID) "chat.completion.chunk" ctx.created
    (getMappedModel ctx.useMapping ctx.model)
    [{ index := 0, delta := .text s, finishReason := fr }]

/-- Embeds the per-text-part emission policy of `handleStreamIter`: while
the character counter is below the budget, each character is sent as its
own chunk; the remainder (and, once the budget is exhausted, the whole
text) is sent as one chunk; empty text produces nothing. Returns the
emitted chunks and the updated counter. -/
def streamChars (ctx : StreamCtx) (cc : Nat) : List Char → List Chunk × Nat
  | [] => ([], cc)
  | c :: rest =>
    if cc < sentenceLength then
      let out := streamChars ctx (cc + 1) rest
      (mkTextChunk ctx [c] none :: out.1, out.2)
    else
      ([mkTextChunk ctx (c :: rest) none], cc)

/-- Embeds the choice/tool-call collection loop of
`genaiResponseToStreamCompletionResponse` over the parts of one candidate,
threading the running part counter. -/
def streamChoicesOfParts (fr : FinishReason) (count : Nat) :
    List GPart → List ChunkChoice × List ToolCall × Nat
  | [] => ([], [], count)
  | .text t :: rest =>
    let reason := if fr.val > 1 then some (convertFinishReason fr) else none
    let out := streamChoicesOfParts fr (count + 1) rest
    ({ index := count, delta := .text t, finishReason := reason } :: out.1, out.2.1, out.2.2)
  | .functionCall name args :: rest =>
    let out := streamChoicesOfParts fr (count + 1) rest
    (out.1,
     { index := count, id := name ++ "-" ++ toString count, name := name, args := args } :: out.2.1,
     out.2.2)

/-- The candidate loop of `genaiResponseToStreamCompletionResponse` (the Go
code dereferences `candidate.Content` without a nil check there; a nil
content is embedded as an empty part list). -/
def streamChoicesOfCands (count : Nat) : List Candidate → List ChunkChoice × List ToolCall × Nat
  | [] => ([], [], count)
  | cand :: rest =>
    let out1 := streamChoicesOfParts cand.finishReason count (cand.content.getD [])
    let out2 := streamChoicesOfCands out1.2.2 rest
    (out1.1 ++ out2.1, out1.2.1 ++ out2.2.1, out2.2.2)

/-- Embeds `genaiResponseToStreamCompletionResponse`: the chunk emitted
when a function-call part arrives mid-stream. -/
def genaiResponseToStreamCompletionResponse (ctx : StreamCtx) (resp : GenResponse) : Chunk :=
  let out := streamChoicesOfCands 0 resp.candidates
  let choices :=
    if out.2.1 ≠ [] then
      out.1 ++ [{ index := 0, delta := .toolCalls out.2.1, finishReason := some "tool_calls" }]
    else
      out.1
  .completion ("chatcmpl-" ++ ctx.respID) "chat.completion.chunk" ctx.created
    (getMappedModel ctx.useMapping ctx.model) choices

/-- The part loop of `handleStreamIter` for one candidate: text is buffered
when the candidate carries a terminal finish reason, streamed under the
character policy otherwise; a function-call part emits one complete chunk
built from the whole response. -/
def processParts (ctx : StreamCtx) (resp : GenResponse) (isLast : Bool) (acc : StreamAcc) :
    List GPart → List Chunk × StreamAcc
  | [] => ([], acc)
  | .text t :: rest =>
    if isLast then
      processParts ctx resp isLast { acc with buffer := acc.buffer ++ t } rest
    else
      let out1 := streamChars ctx acc.charCount t
      let out2 := processParts ctx resp isLast { acc with charCount := out1.2 } rest
      (out1.1 ++ out2.1, out2.2)
  | .functionCall _ _ :: rest =>
    let out2 := processParts ctx resp isLast acc rest
    (genaiResponseToStreamCompletionResponse ctx resp :: out2.1, out2.2)

/-- The candidate loop of `handleStreamIter`: candidates with nil content
are skipped; `isLast` is the Go test `FinishReason > FinishReasonStop`. -/
def processCands (ctx : StreamCtx) (resp : GenResponse) (acc : StreamAcc) :
    List Candidate → List Chunk × StreamAcc
  | [] => ([], acc)
  | cand :: rest =>
    match cand.content with
    | none => processCands ctx resp acc rest
    | some parts =>
      let out1 := processParts ctx resp (cand.finishReason.val > 1) acc parts
      let out2 := processCands ctx resp out1.2 rest
      (out1.1 ++ out2.1, out2.2)

/-- The finish-reason loop of `handleStreamIter`: the first candidate with
a terminal finish reason yields one empty-content chunk carrying the
converted reason. -/
def firstFinishChunk (ctx : StreamCtx) : List Candidate → List Chunk
  | [] => []
  | c :: rest =>
    if c.finishReason.val > 1 then
      [mkTextChunk ctx [] (some (convertFinishReason c.finishReason))]
    else
      firstFinishChunk ctx rest

/-- The end-of-iteration chunks the loop emits when `iter.Next` returns an
error or `iterator.Done` (on `Done`, any buffered text is flushed as one
chunk; on an error, the buffer is dropped). -/
def endChunks (ctx : StreamCtx) (acc : StreamAcc) : IterEnd → List Chunk
  | .done => if acc.buffer ≠ [] then [mkTextChunk ctx acc.buffer none] else []
  | .errCanceled => [.apiError 408 "Request was canceled" "canceled_error"]
  | .errRateLimit => [.apiError 429 "Rate limit exceeded" "rate_limit_error"]
  | .errOther msg => [.apiError 500 msg "internal_server_error"]

/-- The Go test guarding the finish-reason emission:
`len(genaiResp.Candidates) > 0 && genaiResp.Candidates[0].FinishReason > genai.FinishReasonStop`. -/
def finishTriggered (r : GenResponse) : Bool :=
  match r.candidates.head? with
  | some c => decide (c.finishReason.val > 1)
  | none => false

/-- Embeds the main loop of `handleStreamIter` over a simulated backend
increment sequence followed by how the iterator ends. After the candidates
of an increment are processed, a terminal finish reason on the first
candidate flushes the buffer, emits the finish-reason chunk and stops the
loop. -/
def runStream (ctx : StreamCtx) (acc : StreamAcc) : List GenResponse → IterEnd → List Chunk
  | [], e => endChunks ctx acc e
  | r :: rest, e =>
    let out := processCands ctx r acc r.candidates
    if finishTriggered r then
      let flush := if out.2.buffer ≠ [] then [mkTextChunk ctx out.2.buffer none] else []
      out.1 ++ flush ++ firstFinishChunk ctx r.candidates
    else
      out.1 ++ runStream ctx out.2 rest e

/-! ## Response Translator (`genaiResponseToOpenaiResponse` in `chat.go`) -/

/-- The outward chat message of one non-streaming choice. -/
structure OMessage where
  role : String
  content : List Char
  toolCalls : List ToolCall
deriving DecidableEq, Repr

structure OChoice where
  index : Nat
  message : OMessage
  finishReason : String
deriving DecidableEq, Repr

/-- The outward non-streaming completion response. -/
structure OResponse where
  id : String
  object : String
  created : Int
  model : String
  choices : List OChoice
  usage : Option (Nat × Nat × Nat)
deriving DecidableEq, Repr

/-- The part loop of `genaiResponseToOpenaiResponse` over one candidate:
each text part overwrites `content` (the last one wins), each
function-call part appends an outward tool call whose id is the function
name joined with the part index. -/
def candContentToolCalls (j : Nat) (content : List Char) (calls : List ToolCall) :
    List GPart → List Char × List ToolCall
  | [] => (content, calls)
  | .text s :: rest => candContentToolCalls (j + 1) s calls rest
  | .functionCall name args :: rest =>
    candContentToolCalls (j + 1) content
      (calls ++ [{ index := j, id := name ++ "-" ++ toString j, name := name, args := args }]) rest

/-- Converts one backend candidate to one outward choice, including the
tool-calls override: when any tool calls were collected, the message
carries them with an assistant role and no plain content, and the finish
reason becomes `tool_calls`. -/
def convertCandidate (i : Nat) (cand : Candidate) : OChoice :=
  let pair :=
    match cand.content with
    | some parts => candContentToolCalls 0 [] [] parts
    | none => ([], [])
  if pair.2 ≠ [] then
    { index := i,
      message := { role := "assistant", content := [], toolCalls := pair.2 },
      finishReason := "tool_calls" }
  else
    { index := i,
      message := { role := "assistant", content := pair.1, toolCalls := [] },
      finishReason := convertFinishReason cand.finishReason }

/-- Embeds `genaiResponseToOpenaiResponse`; `uuid` and `now` stand for the
freshly drawn UUID and the current timestamp. -/
def genaiResponseToOpenaiResponse (useMapping : Bool) (model uuid : String) (now : Int)
    (resp : GenResponse) : OResponse :=
  { id := "chatcmpl-" ++ uuid,
    object := "chat.completion",
    created := now,
    model := getMappedModel useMapping model,
    choices := resp.candidates.mapIdx convertCandidate,
    usage := resp.usage }

/-- Whether a part list contains at least one function-call part. -/
def hasFunctionCall (parts : List GPart) : Bool :=
  parts.any fun p =>
    match p with
    | .functionCall _ _ => true
    | _ => false

/-! ## Spec-modelled request-side tool-call conversion

The up-to-date `struct.go` of this repository handles assistant messages
that carry tool calls (its caller `setGenaiModelByOpenaiRequest` in
`chat.go` already consumes the `Tools`/`ToolChoice` fields it declares),
but that version of the file is not among the provided sources; every
provided `toStringGenaiContent`/`toVisionGenaiContent` predates it. The
conversion is therefore modelled from the spec below. -/

/-- A tool call carried by an inbound assistant message: a function name
plus its JSON-encoded argument string. -/
structure SpecToolCall where
  id : String
  name : String
  args : String
deriving DecidableEq, Repr

/-- An inbound chat message as the spec-modelled conversion sees it. -/
structure SpecMsg where
  role : String
  content : String
  toolCalls : List SpecToolCall
deriving DecidableEq, Repr

/-- A backend part produced by the spec-modelled conversion: text, or a
function call whose arguments have been parsed into a key/value map. -/
inductive SpecPart where
  | text (s : String)
  | functionCall (name : String) (args : List (String × String))
deriving DecidableEq, Repr

/-- Modelled from the spec: "Any `assistant` message carrying tool calls
additionally emits one function-call part per call, with arguments parsed
from its JSON-encoded argument string into a key/value map (malformed
argument JSON is a hard error for that request, not silently dropped)".
The JSON parser is an abstract parameter returning the key/value map or
nothing on malformed input. -/
def convertMsgToolCallParts (parseArgs : String → Option (List (String × String)))
    (m : SpecMsg) : Except String (List SpecPart) :=
  if m.role = "assistant" ∧ m.toolCalls ≠ [] then
    match m.toolCalls.mapM (fun c => (parseArgs c.args).map (SpecPart.functionCall c.name)) with
    | some fcParts => .ok (SpecPart.text m.content :: fcParts)
    | none => .error "failed to unmarshal function arguments"
  else
    .ok [SpecPart.text m.content]

/-- Modelled from the spec: the request-level conversion fails as a whole
when any message fails (partial conversion is never sent to the
backend). -/
def convertMessagesWithToolCalls (parseArgs : String → Option (List (String × String)))
    (msgs : List SpecMsg) : Except String (List (List SpecPart)) :=
  msgs.mapM (convertMsgToolCallParts parseArgs)

/-- One Server-Sent-Events frame written by `ChatProxyHandler`: a data
frame wrapping one chunk, or the literal `[DONE]` terminal sentinel. -/
inductive Frame where
  | data (c : Chunk)
  | doneSentinel
deriving DecidableEq, Repr

/-- Embeds the streaming write loop of `ChatProxyHandler`: every chunk read
from the channel becomes one data frame, and when the channel closes one
terminal sentinel frame is rendered. -/
def streamFrames (chunks : List Chunk) : List Frame :=
  chunks.map Frame.data ++ [Frame.doneSentinel]

/-! ## Observations on chunks used by the streaming claims -/

/-- The delta text carried by one chunk (error chunks and tool-call deltas
carry none). -/
def chunkDeltaText : Chunk → List Char
  | .completion _ _ _ _ choices =>
    (choices.map fun ch =>
      match ch.delta with
      | .text s => s
      | .toolCalls _ => []).flatten
  | .apiError _ _ _ => []

/-- Whether a chunk carries a finish reason on some choice. -/
def chunkHasFinish : Chunk → Bool
  | .completion _ _ _ _ choices => choices.any fun ch => ch.finishReason.isSome
  | .apiError _ _ _ => false

/-- All text carried by a backend part list, in order. -/
def partsText (parts : List GPart) : List Char :=
  (parts.map fun p =>
    match p with
    | .text s => s
    | .functionCall _ _ => []).flatten

/-- All text carried by one backend increment, in order. -/
def respText (r : GenResponse) : List Char :=
  (r.candidates.map fun c => partsText (c.content.getD [])).flatten

def isTextOnly : GPart → Bool
  | .text _ => true
  | .functionCall _ _ => false

/-- A simulated backend increment consisting of one candidate whose content
is present and made of text parts only. -/
def simpleTextResponse (r : GenResponse) : Bool :=
  match r.candidates with
  | [c] => c.content.isSome && (c.content.getD []).all isTextOnly
  | _ => false

/-- The per-stream identity of a completion chunk: the id built from the
stream's UUID, the chunk object tag, and the stream's timestamp (error
chunks carry none of these fields). -/
def chunkWellTagged (ctx : StreamCtx) : Chunk → Prop
  | .completion id object created _ _ =>
    id = "chatcmpl-" ++ ctx.respID ∧ object = "chat.completion.chunk" ∧ created = ctx.created
  | .apiError _ _ _ => True

/-! ## Concrete sample streams used as witnesses -/

def sampleCtx : StreamCtx :=
  { useMapping := true, model := "gemini-1.5-flash-002", respID := "u", created := 5 }

def sampleTextResponse : GenResponse :=
  { candidates := [{ content := some [GPart.text ['h', 'i']], finishReason := .stop }],
    usage := none }

def sampleMid : List GenResponse :=
  [{ candidates := [{ content := some [GPart.text ['a', 'b']], finishReason := .stop }],
     usage := none },
   { candidates := [{ content := some [GPart.text ['c']], finishReason := .stop }],
     usage := none }]

def sampleFin : GenResponse :=
  { candidates := [{ content := some [GPart.text ['d']], finishReason := .maxTokens }],
    usage := none }

end GeminiProxy

namespace GeminiProxy

/-! ## Theorems -/

theorem isValidGeminiModel_iff_mem (models : List String) (m : String) :
    isValidGeminiModel models m = true ↔ m ∈ effectiveModels models := by
  unfold isValidGeminiModel effectiveModels defaultGeminiModels
  by_cases h : models.isEmpty
  · simp [h]
  · simp [h]

/-- C5 (counterexample): with the vision-alias override environment variable
set to gemini-1.5-pro-latest and a discovered model list that lacks the
vision alias, resolving the absent name gemini-1.0-pro-vision-latest with
mapping disabled yields gemini-1.5-pro-latest, not the default fallback
gemini-1.5-flash-002. -/
theorem parseWithoutMapping_not_always_default :
    Gemini1Dot5ProV ∉ effectiveModels [Gemini1Dot5Flash] ∧
    parseModelWithoutMapping Gemini1Dot5Pro [Gemini1Dot5Flash] Gemini1Dot5ProV = Gemini1Dot5Pro ∧
    Gemini1Dot5Pro ≠ Gemini1Dot5Flash := by decide

/-- C5 (amended): with mapping disabled, a requested name absent from the
discovered (or default fallback) model list and distinct from the vision
alias always resolves to the default backend model gemini-1.5-flash-002;
the vision alias itself also never fails, resolving to the flash default
or, under the override, to gemini-1.5-pro-latest. -/
theorem parseWithoutMapping_fallback :
    (∀ env models m, m ∉ effectiveModels models → m ≠ Gemini1Dot5ProV →
      parseModelWithoutMapping env models m = Gemini1Dot5Flash) ∧
    (∀ env models, parseModelWithoutMapping env models Gemini1Dot5ProV = Gemini1Dot5Flash ∨
      parseModelWithoutMapping env models Gemini1Dot5ProV = Gemini1Dot5Pro) := by
  constructor
  · intro env models m hmem hv
    have hvalid : ¬ isValidGeminiModel models m = true := by
      rw [isValidGeminiModel_iff_mem]
      exact hmem
    unfold parseModelWithoutMapping
    rw [if_neg hv, if_neg hvalid]
  · intro env models
    unfold parseModelWithoutMapping
    rw [if_pos rfl]
    by_cases h : env = Gemini1Dot5Pro
    · right
      rw [if_pos h]
    · left
      rw [if_neg h]

/-- C5 (witness): the unknown model name "m" with mapping disabled, no
override and no discovered list falls back to gemini-1.5-flash-002. -/
theorem parseWithoutMapping_fallback_witness :
    parseModelWithoutMapping "" [] "m" = Gemini1Dot5Flash :=
  parseWithoutMapping_fallback.1 "" [] "m" (by decide) (by decide)

/-- C7 (counterexample): gpt-3.5-turbo is published in the outward model
list, resolves to gemini-1.5-flash-002, and maps back to gpt-4, so the
backend-to-outward mapping is not the inverse of outward-to-backend
resolution on the published list. -/
theorem modelRoundTrip_not_identity :
    GPT3Dot5Turbo ∈ publishedModelIds ∧
    getMappedModel true (convertModel GPT3Dot5Turbo) = GPT4 ∧
    GPT4 ≠ GPT3Dot5Turbo := by decide

/-- C7 (amended): on the six published outward model ids, mapping the
resolved backend model back returns the original name exactly for gpt-4,
gpt-4-turbo-preview and text-embedding-ada-002; gpt-3.5-turbo and gpt-4o
both come back as gpt-4 (the gpt-4 prefix rule shadows the gpt-4o rule),
and gpt-4-vision-preview comes back as gpt-3.5-turbo. -/
theorem modelRoundTrip_on_published :
    getMappedModel true (convertModel GPT4) = GPT4 ∧
    getMappedModel true (convertModel GPT4TurboPreview) = GPT4TurboPreview ∧
    getMappedModel true (convertModel AdaEmbeddingV2) = AdaEmbeddingV2 ∧
    getMappedModel true (convertModel GPT3Dot5Turbo) = GPT4 ∧
    getMappedModel true (convertModel GPT4VisionPreview) = GPT3Dot5Turbo ∧
    getMappedModel true (convertModel GPT4o) = GPT4 ∧
    publishedModelIds = [GPT3Dot5Turbo, GPT4, GPT4TurboPreview,
      GPT4VisionPreview, AdaEmbeddingV2, GPT4o] := by decide

/-- C6: converting the messages [system "be terse", user "hi"] yields
exactly the three backend turns (user "be terse"), (model filler),
(user "hi"); the first two form the patched history and "hi" is the live
prompt. -/
theorem scenarioB_three_turns :
    toStringGenaiContent [{ role := "system", content := "be terse" }, { role := "user", content := "hi" }] =
      [{ role := genaiRoleUser, parts := ["be terse"] }, fillerModelTurn,
       { role := genaiRoleUser, parts := ["hi"] }] ∧
    setGenaiChatHistory (toStringGenaiContent
        [{ role := "system", content := "be terse" }, { role := "user", content := "hi" }]) =
      [{ role := genaiRoleUser, parts := ["be terse"] }, fillerModelTurn] ∧
    liveParts (toStringGenaiContent
        [{ role := "system", content := "be terse" }, { role := "user", content := "hi" }]) = ["hi"] ∧
    fullTurns [{ role := "system", content := "be terse" }, { role := "user", content := "hi" }] =
      [{ role := genaiRoleUser, parts := ["be terse"] }, fillerModelTurn,
       { role := genaiRoleUser, parts := ["hi"] }] := by decide

/-- C9 (counterexample): on the empty input the unmarshaler inspects
`data[0]` before checking emptiness, an out-of-bounds access (embedded as
`none`), so it is not well-defined on the empty input. -/
theorem unmarshalStringArray_empty_oob :
    unmarshalStringArray (fun _ => .error "e") (fun _ => .error "e") [] = none := rfl

/-- C9 (amended): on every nonempty input byte sequence the unmarshaler is
total: it inspects the first byte and returns the delegated parse result
(a string list or an error) without out-of-bounds access; only the empty
sequence, which the JSON decoder never passes, hits the out-of-bounds
first-byte read. -/
theorem unmarshalStringArray_total_on_nonempty
    (parseArr : List Nat → Except String (List String))
    (parseStr : List Nat → Except String String)
    (data : List Nat) (h : data ≠ []) :
    (unmarshalStringArray parseArr parseStr data).isSome = true := by
  match data, h with
  | b :: rest, _ =>
    by_cases hb : b = 91
    · simp [unmarshalStringArray, hb]
    · simp [unmarshalStringArray, hb]

/-- C9 (witness): a nonempty input (a JSON string starting with a quote
byte) is handled totally. -/
theorem unmarshalStringArray_total_witness :
    (unmarshalStringArray (fun _ => .error "e") (fun _ => .ok "hi") [34]).isSome = true :=
  unmarshalStringArray_total_on_nonempty (fun _ => .error "e") (fun _ => .ok "hi") [34] (by decide)

/-- C4: the error mapper always yields a status code plus body, in
classification order: an already-outward-shaped API error passes through
(with its embedded status code when that code is an integer); a vendor
error with status 429 is normalized to the rate-limit body regardless of
its message; any other vendor status passes through with the vendor's
message; everything else becomes a generic 500 server_error carrying the
raw error text. -/
theorem errorMapper_classification :
    (∀ body, (handleGenerateContentError (.apiError body)).2 = body) ∧
    (∀ n msg ty, handleGenerateContentError (.apiError { code := some n, message := msg, errType := ty }) =
      (n, { code := some n, message := msg, errType := ty })) ∧
    (∀ msg, handleGenerateContentError (.googleError 429 msg) =
      (429, { code := some 429, message := "Rate limit exceeded", errType := "rate_limit_error" })) ∧
    (∀ code msg, code ≠ 429 → handleGenerateContentError (.googleError code msg) =
      (code, { code := some code, message := msg, errType := "server_error" })) ∧
    (∀ msg, handleGenerateContentError (.otherError msg) =
      (500, { code := some 500, message := msg, errType := "server_error" })) := by
  refine ⟨fun body => rfl, fun n msg ty => rfl, fun msg => rfl, ?_, fun msg => rfl⟩
  intro code msg h
  simp [handleGenerateContentError, h]

/-- C4 (witness): a vendor error with a non-429 status passes through with
its own status and message. -/
theorem errorMapper_classification_witness :
    handleGenerateContentError (.googleError 503 "unavailable") =
      (503, { code := some 503, message := "unavailable", errType := "server_error" }) :=
  errorMapper_classification.2.2.2.1 503 "unavailable" (by decide)

end GeminiProxy

namespace GeminiProxy

theorem rolesAlternate_append_last (l : List GContent) (x : GContent)
    (hl : rolesAlternate l = true)
    (hlast : ∀ c, l.getLast? = some c → c.role ≠ x.role) :
    rolesAlternate (l ++ [x]) = true := by
  induction l with
  | nil => rfl
  | cons a t ih =>
    cases t with
    | nil =>
      have ha : a.role ≠ x.role := hlast a rfl
      simp [rolesAlternate, ha]
    | cons b t2 =>
      have h1 : a.role ≠ b.role ∧ rolesAlternate (b :: t2) = true := by
        simpa [rolesAlternate, Bool.and_eq_true, bne_iff_ne] using hl
      have h2 : rolesAlternate ((b :: t2) ++ [x]) = true :=
        ih h1.2 (fun c hc => hlast c (by rw [List.getLast?_cons_cons]; exact hc))
      simpa [rolesAlternate, Bool.and_eq_true, bne_iff_ne, h1.1] using h2

theorem historyBase_eq_dropLast (l : List GContent) :
    (if l.length > 1 then l.dropLast else []) = l.dropLast := by
  match l with
  | [] => rfl
  | [a] => simp
  | a :: b :: t =>
    have h : (a :: b :: t).length > 1 := by simp
    rw [if_pos h]

theorem setGenaiChatHistory_eq (l : List GContent) :
    setGenaiChatHistory l =
      match l.dropLast.getLast? with
      | some c => if c.role ≠ genaiRoleModel then l.dropLast ++ [fillerModelTurn] else l.dropLast
      | none => l.dropLast := by
  simp only [setGenaiChatHistory, historyBase_eq_dropLast]

/-- C1 (amended): the full backend turn list (patched history plus the live
user prompt) strictly alternates whenever the converted turn sequence with
its last turn removed already alternates; the history patching guarantees
only the seam (the history never ends on a non-model turn), so strict
alternation does not hold for arbitrary role sequences. -/
theorem fullTurns_alternate (msgs : List Msg)
    (h : rolesAlternate (toStringGenaiContent msgs).dropLast = true) :
    rolesAlternate (fullTurns msgs) = true := by
  cases hlast : (toStringGenaiContent msgs).dropLast.getLast? with
  | none =>
    have hnil : (toStringGenaiContent msgs).dropLast = [] :=
      List.getLast?_eq_none_iff.mp hlast
    simp [fullTurns, setGenaiChatHistory_eq, hnil, rolesAlternate]
  | some c =>
    simp only [fullTurns, setGenaiChatHistory_eq, hlast]
    by_cases hc : c.role ≠ genaiRoleModel
    · rw [if_pos hc]
      have halt : rolesAlternate ((toStringGenaiContent msgs).dropLast ++ [fillerModelTurn]) = true := by
        apply rolesAlternate_append_last _ _ h
        intro c2 hc2
        rw [hlast] at hc2
        cases hc2
        simpa [fillerModelTurn] using hc
      apply rolesAlternate_append_last _ _ halt
      intro c2 hc2
      rw [List.getLast?_concat] at hc2
      cases hc2
      simp [fillerModelTurn, genaiRoleModel, genaiRoleUser]
    · rw [if_neg hc]
      push_neg at hc
      apply rolesAlternate_append_last _ _ h
      intro c2 hc2
      rw [hlast] at hc2
      cases hc2
      rw [hc]
      simp [genaiRoleModel, genaiRoleUser]

/-- C1 (witness): the scenario-B message list [system, user] satisfies the
alternation hypothesis and its full backend turn list alternates. -/
theorem fullTurns_alternate_witness :
    rolesAlternate (fullTurns
      [{ role := "system", content := "be terse" }, { role := "user", content := "hi" }]) = true :=
  fullTurns_alternate
    [{ role := "system", content := "be terse" }, { role := "user", content := "hi" }] (by decide)

/-- C1 (counterexample): three consecutive user messages are accepted by
the converter but produce two consecutive user turns in the history, so
the full backend turn list does not strictly alternate. -/
theorem fullTurns_not_always_alternating :
    rolesAlternate (fullTurns
      [{ role := "user", content := "a" }, { role := "user", content := "b" },
       { role := "user", content := "c" }]) = false := by decide

end GeminiProxy

namespace GeminiProxy

theorem candContentToolCalls_nil_iff (parts : List GPart) :
    ∀ (j : Nat) (content : List Char) (calls : List ToolCall),
      ((candContentToolCalls j content calls parts).2 = [] ↔
        (calls = [] ∧ hasFunctionCall parts = false)) := by
  induction parts with
  | nil =>
    intro j content calls
    simp [candContentToolCalls, hasFunctionCall]
  | cons p rest ih =>
    intro j content calls
    cases p with
    | text s =>
      simp [candContentToolCalls, hasFunctionCall, ih, isTextOnly]
    | functionCall name args =>
      simp [candContentToolCalls, hasFunctionCall, ih, isTextOnly]

/-- C3: the finish-reason translation maps the backend max-tokens reason to
"length", safety and recitation to "content_filter", and every other value
(normal stop included) to "stop"; the non-streaming translator converts
candidates positionally, and any candidate containing a function-call part
is overridden to the "tool_calls" finish reason with the collected tool
calls on the message and no plain content. -/
theorem responseTranslation_finishReasons :
    (convertFinishReason .maxTokens = "length" ∧
     convertFinishReason .safety = "content_filter" ∧
     convertFinishReason .recitation = "content_filter" ∧
     convertFinishReason .unspecified = "stop" ∧
     convertFinishReason .stop = "stop" ∧
     convertFinishReason .other = "stop") ∧
    (∀ useMapping model uuid now resp,
      (genaiResponseToOpenaiResponse useMapping model uuid now resp).choices =
        resp.candidates.mapIdx convertCandidate) ∧
    (∀ i cand, hasFunctionCall (cand.content.getD []) = false →
      (convertCandidate i cand).finishReason = convertFinishReason cand.finishReason) ∧
    (∀ i cand parts, cand.content = some parts → hasFunctionCall parts = true →
      (convertCandidate i cand).finishReason = "tool_calls" ∧
      (convertCandidate i cand).message.content = [] ∧
      (convertCandidate i cand).message.toolCalls = (candContentToolCalls 0 [] [] parts).2 ∧
      (convertCandidate i cand).message.toolCalls ≠ []) := by
  refine ⟨⟨rfl, rfl, rfl, rfl, rfl, rfl⟩, fun _ _ _ _ _ => rfl, ?_, ?_⟩
  · intro i cand hno
    cases hcont : cand.content with
    | none => simp [convertCandidate, hcont]
    | some parts =>
      rw [hcont] at hno
      simp only [Option.getD_some] at hno
      have hnil : (candContentToolCalls 0 [] [] parts).2 = [] :=
        (candContentToolCalls_nil_iff parts 0 [] []).mpr ⟨rfl, hno⟩
      simp [convertCandidate, hcont, hnil]
  · intro i cand parts hcont hfc
    have hne : (candContentToolCalls 0 [] [] parts).2 ≠ [] := by
      intro hnil
      have := (candContentToolCalls_nil_iff parts 0 [] []).mp hnil
      rw [this.2] at hfc
      cases hfc
    simp [convertCandidate, hcont, hne]

/-- C3 (witness): a candidate with one function-call part gets the
tool_calls finish reason, no plain content, and a nonempty tool-call
list. -/
theorem responseTranslation_finishReasons_witness :
    (convertCandidate 0 { content := some [GPart.functionCall "f" "x"], finishReason := .stop }).finishReason = "tool_calls" ∧
    (convertCandidate 0 { content := some [GPart.functionCall "f" "x"], finishReason := .stop }).message.content = [] ∧
    (convertCandidate 0 { content := some [GPart.functionCall "f" "x"], finishReason := .stop }).message.toolCalls =
      (candContentToolCalls 0 [] [] [GPart.functionCall "f" "x"]).2 ∧
    (convertCandidate 0 { content := some [GPart.functionCall "f" "x"], finishReason := .stop }).message.toolCalls ≠ [] :=
  responseTranslation_finishReasons.2.2.2 0
    { content := some [GPart.functionCall "f" "x"], finishReason := .stop }
    [GPart.functionCall "f" "x"] rfl (by decide)

end GeminiProxy

namespace GeminiProxy

theorem mapM_option_eq_none_of_mem {α β : Type} (f : α → Option β) (l : List α) (a : α)
    (ha : a ∈ l) (hnone : f a = none) : l.mapM f = none := by
  rw [← List.mapM'_eq_mapM]
  induction l with
  | nil => cases ha
  | cons b t ih =>
    simp only [List.mapM']
    rcases List.mem_cons.mp ha with h | h
    · subst h
      rw [hnone]
      rfl
    · cases hb : f b with
      | none => rfl
      | some v =>
        rw [ih h]
        rfl

theorem mapM_except_eq_error_of_mem {α β ε : Type} (f : α → Except ε β) (l : List α) (a : α)
    (e : ε) (ha : a ∈ l) (herr : f a = .error e) :
    ∃ e2, l.mapM f = .error e2 := by
  rw [← List.mapM'_eq_mapM]
  induction l with
  | nil => cases ha
  | cons b t ih =>
    simp only [List.mapM']
    rcases List.mem_cons.mp ha with h | h
    · subst h
      rw [herr]
      exact ⟨e, rfl⟩
    · cases hb : f b with
      | error e3 => exact ⟨e3, rfl⟩
      | ok v =>
        obtain ⟨e2, h2⟩ := ih h
        rw [h2]
        exact ⟨e2, rfl⟩

theorem toolCalls_mapM_parsed (parse : String → Option (List (String × String)))
    (calls : List SpecToolCall) :
    ∀ (maps : List (List (String × String))),
      calls.mapM (fun c => parse c.args) = some maps →
      calls.mapM (fun c => (parse c.args).map (SpecPart.functionCall c.name)) =
        some ((calls.zip maps).map fun p => SpecPart.functionCall p.1.name p.2) := by
  rw [← List.mapM'_eq_mapM, ← List.mapM'_eq_mapM]
  induction calls with
  | nil =>
    intro maps h
    simp only [List.mapM'] at h
    cases h
    rfl
  | cons c rest ih =>
    intro maps h
    simp only [List.mapM'] at h ⊢
    cases hc : parse c.args with
    | none =>
      rw [hc] at h
      cases h
    | some v =>
      rw [hc] at h
      cases hrest : rest.mapM' (fun c => parse c.args) with
      | none =>
        rw [hrest] at h
        cases h
      | some maps2 =>
        rw [hrest] at h
        cases h
        rw [ih maps2 hrest]
        rfl

/-- C8: spec-modelled request-side conversion of assistant tool calls: when
every tool call's JSON-encoded argument string parses, the message emits
one function-call part per call in order, carrying the parsed key/value
map; when any argument string is malformed, the whole request conversion
fails with a hard error instead of dropping the call. -/
theorem toolCallConversion :
    (∀ parse (m : SpecMsg) maps, m.role = "assistant" →
       m.toolCalls.mapM (fun c => parse c.args) = some maps →
       convertMsgToolCallParts parse m =
         .ok (SpecPart.text m.content ::
           (m.toolCalls.zip maps).map fun p => SpecPart.functionCall p.1.name p.2)) ∧
    (∀ parse msgs (m : SpecMsg) c, m ∈ msgs → m.role = "assistant" → c ∈ m.toolCalls →
       parse c.args = none →
       ∃ e, convertMessagesWithToolCalls parse msgs = .error e) := by
  constructor
  · intro parse m maps hrole hmap
    cases htc : m.toolCalls with
    | nil =>
      rw [htc] at hmap
      cases hmap
      simp [convertMsgToolCallParts, htc]
    | cons c rest =>
      have hne : m.toolCalls ≠ [] := by rw [htc]; intro hcon; cases hcon
      unfold convertMsgToolCallParts
      rw [if_pos ⟨hrole, hne⟩, toolCalls_mapM_parsed parse m.toolCalls maps hmap, htc]
  · intro parse msgs m c hm hrole hc hnone
    have hmerr : convertMsgToolCallParts parse m = .error "failed to unmarshal function arguments" := by
      have hne : m.toolCalls ≠ [] := List.ne_nil_of_mem hc
      have hmapnone : m.toolCalls.mapM (fun c => (parse c.args).map (SpecPart.functionCall c.name)) = none :=
        mapM_option_eq_none_of_mem _ m.toolCalls c hc (by rw [hnone]; rfl)
      unfold convertMsgToolCallParts
      rw [if_pos ⟨hrole, hne⟩, hmapnone]
    exact mapM_except_eq_error_of_mem _ msgs m _ hm hmerr

/-- C8 (witness): with a parser accepting "good" and rejecting "bad", a
successful assistant message emits one function-call part per call, and a
message containing the malformed call makes the whole conversion fail. -/
theorem toolCallConversion_witness :
    (convertMsgToolCallParts (fun s => if s = "good" then some [("k", "v")] else none)
        { role := "assistant", content := "hi",
          toolCalls := [{ id := "f-0", name := "f", args := "good" }] } =
      .ok [SpecPart.text "hi", SpecPart.functionCall "f" [("k", "v")]]) ∧
    (∃ e, convertMessagesWithToolCalls (fun s => if s = "good" then some [("k", "v")] else none)
        [{ role := "assistant", content := "hi",
           toolCalls := [{ id := "f-0", name := "f", args := "bad" }] }] = .error e) := by
  constructor
  · exact toolCallConversion.1 (fun s => if s = "good" then some [("k", "v")] else none)
      { role := "assistant", content := "hi",
        toolCalls := [{ id := "f-0", name := "f", args := "good" }] } [[("k", "v")]] rfl (by decide)
  · exact toolCallConversion.2 (fun s => if s = "good" then some [("k", "v")] else none)
      [{ role := "assistant", content := "hi",
         toolCalls := [{ id := "f-0", name := "f", args := "bad" }] }]
      { role := "assistant", content := "hi",
        toolCalls := [{ id := "f-0", name := "f", args := "bad" }] }
      { id := "f-0", name := "f", args := "bad" } (by decide) rfl (by decide) (by decide)
  
end GeminiProxy

namespace GeminiProxy

theorem chunkDeltaText_mkTextChunk (ctx : StreamCtx) (s : List Char) (fr : Option String) :
    chunkDeltaText (mkTextChunk ctx s fr) = s := by
  simp [chunkDeltaText, mkTextChunk]

theorem chunkHasFinish_mkTextChunk (ctx : StreamCtx) (s : List Char) (fr : Option String) :
    chunkHasFinish (mkTextChunk ctx s fr) = fr.isSome := by
  simp [chunkHasFinish, mkTextChunk]

theorem streamChars_spec (ctx : StreamCtx) :
    ∀ (t : List Char) (cc : Nat),
      (((streamChars ctx cc t).1.map chunkDeltaText).flatten = t ∧
       ∀ ch ∈ (streamChars ctx cc t).1, chunkHasFinish ch = false) := by
  intro t
  induction t with
  | nil => intro cc; exact ⟨rfl, fun ch hch => absurd hch (List.not_mem_nil ch)⟩
  | cons c rest ih =>
    intro cc
    unfold streamChars
    by_cases h : cc < sentenceLength
    · rw [if_pos h]
      refine ⟨?_, ?_⟩
      · simp only [List.map_cons, List.flatten_cons, chunkDeltaText_mkTextChunk]
        rw [(ih (cc + 1)).1]
        rfl
      · intro ch hch
        rcases List.mem_cons.mp hch with h2 | h2
        · rw [h2, chunkHasFinish_mkTextChunk]
          rfl
        · exact (ih (cc + 1)).2 ch h2
    · rw [if_neg h]
      refine ⟨?_, ?_⟩
      · simp [chunkDeltaText_mkTextChunk]
      · intro ch hch
        rcases List.mem_cons.mp hch with h2 | h2
        · rw [h2, chunkHasFinish_mkTextChunk]
          rfl
        · cases h2

theorem processParts_stream_spec (ctx : StreamCtx) (resp : GenResponse) :
    ∀ (parts : List GPart), parts.all isTextOnly = true → ∀ (acc : StreamAcc),
      (((processParts ctx resp false acc parts).1.map chunkDeltaText).flatten = partsText parts ∧
       (∀ ch ∈ (processParts ctx resp false acc parts).1, chunkHasFinish ch = false) ∧
       (processParts ctx resp false acc parts).2.buffer = acc.buffer) := by
  intro parts
  induction parts with
  | nil =>
    intro _ acc
    exact ⟨rfl, fun ch hch => absurd hch (List.not_mem_nil ch), rfl⟩
  | cons p rest ih =>
    intro hall acc
    cases p with
    | functionCall name args =>
      rw [List.all_cons] at hall
      cases hall
    | text t =>
      rw [List.all_cons, Bool.and_eq_true] at hall
      have ihr := ih hall.2
      unfold processParts
      rw [if_neg Bool.false_ne_true]
      refine ⟨?_, ?_, ?_⟩
      · simp only [List.map_append, List.flatten_append]
        rw [(streamChars_spec ctx t acc.charCount).1,
            (ihr { acc with charCount := (streamChars ctx acc.charCount t).2 }).1]
        simp [partsText]
      · intro ch hch
        rcases List.mem_append.mp hch with h2 | h2
        · exact (streamChars_spec ctx t acc.charCount).2 ch h2
        · exact (ihr { acc with charCount := (streamChars ctx acc.charCount t).2 }).2.1 ch h2
      · exact (ihr { acc with charCount := (streamChars ctx acc.charCount t).2 }).2.2

theorem processParts_buffer_spec (ctx : StreamCtx) (resp : GenResponse) :
    ∀ (parts : List GPart), parts.all isTextOnly = true → ∀ (acc : StreamAcc),
      ((processParts ctx resp true acc parts).1 = [] ∧
       (processParts ctx resp true acc parts).2.buffer = acc.buffer ++ partsText parts ∧
       (processParts ctx resp true acc parts).2.charCount = acc.charCount) := by
  intro parts
  induction parts with
  | nil =>
    intro _ acc
    exact ⟨rfl, by simp [processParts, partsText], rfl⟩
  | cons p rest ih =>
    intro hall acc
    cases p with
    | functionCall name args =>
      rw [List.all_cons] at hall
      cases hall
    | text t =>
      rw [List.all_cons, Bool.and_eq_true] at hall
      have ihr := ih hall.2 { acc with buffer := acc.buffer ++ t }
      unfold processParts
      rw [if_pos rfl]
      refine ⟨ihr.1, ?_, ihr.2.2⟩
      rw [ihr.2.1]
      simp [partsText, List.append_assoc]

theorem simpleTextResponse_elim (r : GenResponse) (h : simpleTextResponse r = true) :
    ∃ c parts, r.candidates = [c] ∧ c.content = some parts ∧ parts.all isTextOnly = true := by
  unfold simpleTextResponse at h
  cases hcand : r.candidates with
  | nil => rw [hcand] at h; cases h
  | cons c t =>
    cases t with
    | cons d t2 => rw [hcand] at h; cases h
    | nil =>
      rw [hcand] at h
      have h2 : (c.content.isSome && (c.content.getD []).all isTextOnly) = true := h
      cases hcont : c.content with
      | none => rw [hcont] at h2; simp at h2
      | some parts =>
        refine ⟨c, parts, rfl, hcont, ?_⟩
        rw [hcont] at h2
        simpa using h2

end GeminiProxy

namespace GeminiProxy

theorem finishTriggered_eq (r : GenResponse) (c : Candidate) (t : List Candidate)
    (h : r.candidates = c :: t) : finishTriggered r = decide (c.finishReason.val > 1) := by
  unfold finishTriggered
  rw [h, List.head?_cons]

theorem respText_simple (r : GenResponse) (c : Candidate) (parts : List GPart)
    (hcand : r.candidates = [c]) (hcont : c.content = some parts) :
    respText r = partsText parts := by
  simp [respText, hcand, hcont]

theorem processCands_single_some (ctx : StreamCtx) (resp : GenResponse) (acc : StreamAcc)
    (c : Candidate) (parts : List GPart) (hcont : c.content = some parts) :
    processCands ctx resp acc [c] =
      processParts ctx resp (decide (c.finishReason.val > 1)) acc parts := by
  simp [processCands, hcont]

theorem runStream_cons (ctx : StreamCtx) (acc : StreamAcc) (r : GenResponse)
    (rest : List GenResponse) (e : IterEnd) :
    runStream ctx acc (r :: rest) e =
      (let out := processCands ctx r acc r.candidates
       if finishTriggered r then
         (out.1 ++ (if out.2.buffer ≠ [] then [mkTextChunk ctx out.2.buffer none] else []) ++
           firstFinishChunk ctx r.candidates)
       else
         out.1 ++ runStream ctx out.2 rest e) := rfl

theorem runStream_text_spec (ctx : StreamCtx) :
    ∀ (mid : List GenResponse) (fin : GenResponse) (e : IterEnd) (cc : Nat),
      (∀ r ∈ mid, simpleTextResponse r = true ∧ finishTriggered r = false) →
      simpleTextResponse fin = true → finishTriggered fin = true →
      ((((runStream ctx ⟨[], cc⟩ (mid ++ [fin]) e).map chunkDeltaText).flatten =
        ((mid ++ [fin]).map respText).flatten) ∧
       (runStream ctx ⟨[], cc⟩ (mid ++ [fin]) e).countP chunkHasFinish = 1) := by
  intro mid
  induction mid with
  | nil =>
    intro fin e cc _ hfin htrig
    obtain ⟨c, parts, hcand, hcont, hall⟩ := simpleTextResponse_elim fin hfin
    have hval : decide (c.finishReason.val > 1) = true := by
      rw [finishTriggered_eq fin c [] hcand] at htrig
      exact htrig
    have hbuf := processParts_buffer_spec ctx fin parts hall ⟨[], cc⟩
    rw [List.nil_append, runStream_cons]
    simp only [hcand, processCands_single_some ctx fin ⟨[], cc⟩ c parts hcont, hval]
    rw [if_pos htrig]
    simp only [hbuf.1, hbuf.2.1, List.nil_append]
    unfold firstFinishChunk
    rw [if_pos (of_decide_eq_true hval)]
    by_cases hempty : partsText parts = []
    · rw [if_neg (not_not_intro hempty)]
      refine ⟨?_, ?_⟩
      · simp [chunkDeltaText_mkTextChunk, respText_simple fin c parts hcand hcont, hempty]
      · simp [List.countP_cons, chunkHasFinish_mkTextChunk]
    · rw [if_pos hempty]
      refine ⟨?_, ?_⟩
      · simp [chunkDeltaText_mkTextChunk, respText_simple fin c parts hcand hcont]
      · simp [List.countP_cons, List.countP_append, chunkHasFinish_mkTextChunk]
  | cons r rest ih =>
    intro fin e cc hmid hfin htrig
    have hr := hmid r (List.mem_cons_self r rest)
    obtain ⟨c, parts, hcand, hcont, hall⟩ := simpleTextResponse_elim r hr.1
    have hsp := processParts_stream_spec ctx r parts hall ⟨[], cc⟩
    have hval : decide (c.finishReason.val > 1) = false := by
      rw [finishTriggered_eq r c [] hcand] at hr
      exact hr.2
    rw [List.cons_append, runStream_cons]
    simp only [hcand, processCands_single_some ctx r ⟨[], cc⟩ c parts hcont, hval]
    rw [finishTriggered_eq r c [] hcand, hval, if_neg Bool.false_ne_true]
    have hacc2 : (processParts ctx r false ⟨[], cc⟩ parts).2 =
        (⟨[], (processParts ctx r false ⟨[], cc⟩ parts).2.charCount⟩ : StreamAcc) := by
      have hb := hsp.2.2
      cases hq : (processParts ctx r false ⟨[], cc⟩ parts).2 with
      | mk b n =>
        rw [hq] at hb
        simp only at hb
        rw [hb]
    rw [hacc2]
    have ihres := ih fin e (processParts ctx r false ⟨[], cc⟩ parts).2.charCount
      (fun r2 h2 => hmid r2 (List.mem_cons_of_mem _ h2)) hfin htrig
    refine ⟨?_, ?_⟩
    · simp only [List.map_append, List.flatten_append, hsp.1, ihres.1, List.map_cons,
        List.flatten_cons, respText_simple r c parts hcand hcont]
    · rw [List.countP_append, ihres.2]
      have hzero : (processParts ctx r false ⟨[], cc⟩ parts).1.countP chunkHasFinish = 0 := by
        rw [List.countP_eq_zero]
        intro ch hch
        simp [hsp.2.1 ch hch]
      rw [hzero]

end GeminiProxy

namespace GeminiProxy

/-- C2: for a simulated backend increment sequence of single-candidate
text-only increments whose last increment carries a terminal finish reason
(and no earlier one does), the emitted chunk sequence's concatenated delta
text equals the concatenation of all backend text parts in order, exactly
one chunk carries a finish reason, and the handler's frame sequence ends
with the literal terminal sentinel after the chunks. -/
theorem streaming_completeness (ctx : StreamCtx) (mid : List GenResponse) (fin : GenResponse)
    (e : IterEnd)
    (hmid : ∀ r ∈ mid, simpleTextResponse r = true ∧ finishTriggered r = false)
    (hfin : simpleTextResponse fin = true) (htrig : finishTriggered fin = true) :
    (((runStream ctx ⟨[], 0⟩ (mid ++ [fin]) e).map chunkDeltaText).flatten =
      ((mid ++ [fin]).map respText).flatten) ∧
    ((runStream ctx ⟨[], 0⟩ (mid ++ [fin]) e).countP chunkHasFinish = 1) ∧
    ((streamFrames (runStream ctx ⟨[], 0⟩ (mid ++ [fin]) e)).getLast? =
      some Frame.doneSentinel) := by
  have h := runStream_text_spec ctx mid fin e 0 hmid hfin htrig
  exact ⟨h.1, h.2, by simp [streamFrames, List.getLast?_concat]⟩

/-- C2 (witness): three text increments ("ab", "c", then "d" with a
max-tokens finish) stream completely with one finish chunk and the
terminal sentinel. -/
theorem streaming_completeness_witness :
    (((runStream sampleCtx ⟨[], 0⟩ (sampleMid ++ [sampleFin]) IterEnd.done).map chunkDeltaText).flatten =
      ((sampleMid ++ [sampleFin]).map respText).flatten) ∧
    ((runStream sampleCtx ⟨[], 0⟩ (sampleMid ++ [sampleFin]) IterEnd.done).countP chunkHasFinish = 1) ∧
    ((streamFrames (runStream sampleCtx ⟨[], 0⟩ (sampleMid ++ [sampleFin]) IterEnd.done)).getLast? =
      some Frame.doneSentinel) :=
  streaming_completeness sampleCtx sampleMid sampleFin IterEnd.done (by decide) (by decide) (by decide)

end GeminiProxy

namespace GeminiProxy

theorem chunkWellTagged_mkTextChunk (ctx : StreamCtx) (s : List Char) (fr : Option String) :
    chunkWellTagged ctx (mkTextChunk ctx s fr) :=
  ⟨rfl, rfl, rfl⟩

theorem chunkWellTagged_streamResp (ctx : StreamCtx) (resp : GenResponse) :
    chunkWellTagged ctx (genaiResponseToStreamCompletionResponse ctx resp) :=
  ⟨rfl, rfl, rfl⟩

theorem streamChars_tagged (ctx : StreamCtx) :
    ∀ (t : List Char) (cc : Nat), ∀ ch ∈ (streamChars ctx cc t).1, chunkWellTagged ctx ch := by
  intro t
  induction t with
  | nil => intro cc ch hch; cases hch
  | cons c rest ih =>
    intro cc ch hch
    unfold streamChars at hch
    by_cases h : cc < sentenceLength
    · rw [if_pos h] at hch
      rcases List.mem_cons.mp hch with h2 | h2
      · rw [h2]; exact chunkWellTagged_mkTextChunk ctx [c] none
      · exact ih (cc + 1) ch h2
    · rw [if_neg h] at hch
      rcases List.mem_cons.mp hch with h2 | h2
      · rw [h2]; exact chunkWellTagged_mkTextChunk ctx (c :: rest) none
      · cases h2

theorem processParts_tagged (ctx : StreamCtx) (resp : GenResponse) :
    ∀ (parts : List GPart) (isLast : Bool) (acc : StreamAcc),
      ∀ ch ∈ (processParts ctx resp isLast acc parts).1, chunkWellTagged ctx ch := by
  intro parts
  induction parts with
  | nil => intro _ _ ch hch; cases hch
  | cons p rest ih =>
    intro isLast acc ch hch
    cases p with
    | text t =>
      cases isLast with
      | true =>
        unfold processParts at hch
        rw [if_pos rfl] at hch
        exact ih true _ ch hch
      | false =>
        unfold processParts at hch
        rw [if_neg Bool.false_ne_true] at hch
        rcases List.mem_append.mp hch with h2 | h2
        · exact streamChars_tagged ctx t acc.charCount ch h2
        · exact ih false _ ch h2
    | functionCall name args =>
      unfold processParts at hch
      rcases List.mem_cons.mp hch with h2 | h2
      · rw [h2]; exact chunkWellTagged_streamResp ctx resp
      · exact ih isLast acc ch h2

theorem processCands_tagged (ctx : StreamCtx) (resp : GenResponse) :
    ∀ (cands : List Candidate) (acc : StreamAcc),
      ∀ ch ∈ (processCands ctx resp acc cands).1, chunkWellTagged ctx ch := by
  intro cands
  induction cands with
  | nil => intro acc ch hch; cases hch
  | cons c rest ih =>
    intro acc ch hch
    unfold processCands at hch
    cases hcont : c.content with
    | none =>
      simp only [hcont] at hch
      exact ih acc ch hch
    | some parts =>
      simp only [hcont] at hch
      rcases List.mem_append.mp hch with h2 | h2
      · exact processParts_tagged ctx resp parts _ acc ch h2
      · exact ih _ ch h2

theorem firstFinishChunk_tagged (ctx : StreamCtx) :
    ∀ (cands : List Candidate), ∀ ch ∈ firstFinishChunk ctx cands, chunkWellTagged ctx ch := by
  intro cands
  induction cands with
  | nil => intro ch hch; cases hch
  | cons c rest ih =>
    intro ch hch
    unfold firstFinishChunk at hch
    by_cases h : c.finishReason.val > 1
    · rw [if_pos h] at hch
      rcases List.mem_cons.mp hch with h2 | h2
      · rw [h2]; exact chunkWellTagged_mkTextChunk ctx [] _
      · cases h2
    · rw [if_neg h] at hch
      exact ih ch hch

theorem endChunks_tagged (ctx : StreamCtx) (acc : StreamAcc) :
    ∀ (e : IterEnd), ∀ ch ∈ endChunks ctx acc e, chunkWellTagged ctx ch := by
  intro e ch hch
  cases e with
  | done =>
    unfold endChunks at hch
    by_cases hb : acc.buffer ≠ []
    · rw [if_pos hb] at hch
      rcases List.mem_cons.mp hch with h2 | h2
      · rw [h2]; exact chunkWellTagged_mkTextChunk ctx acc.buffer none
      · cases h2
    · rw [if_neg hb] at hch
      cases hch
  | errCanceled =>
    rcases List.mem_cons.mp hch with h2 | h2
    · rw [h2]; trivial
    · cases h2
  | errRateLimit =>
    rcases List.mem_cons.mp hch with h2 | h2
    · rw [h2]; trivial
    · cases h2
  | errOther msg =>
    rcases List.mem_cons.mp hch with h2 | h2
    · rw [h2]; trivial
    · cases h2

/-- C10: within one streaming request, every completion chunk the stream
translator emits carries the id "chatcmpl-" followed by the UUID fixed at
stream start, the created timestamp fixed at stream start, and the object
tag "chat.completion.chunk", for every backend increment sequence, start
state and iteration ending (error chunks are not completion chunks). -/
theorem streaming_chunk_identity (ctx : StreamCtx) :
    ∀ (rs : List GenResponse) (acc : StreamAcc) (e : IterEnd),
      ∀ ch ∈ runStream ctx acc rs e, chunkWellTagged ctx ch := by
  intro rs
  induction rs with
  | nil => intro acc e ch hch; exact endChunks_tagged ctx acc e ch hch
  | cons r rest ih =>
    intro acc e ch hch
    simp only [runStream_cons] at hch
    by_cases ht : finishTriggered r = true
    · rw [if_pos ht] at hch
      rcases List.mem_append.mp hch with h2 | h2
      · rcases List.mem_append.mp h2 with h3 | h3
        · exact processCands_tagged ctx r r.candidates acc ch h3
        · by_cases hb : (processCands ctx r acc r.candidates).2.buffer ≠ []
          · rw [if_pos hb] at h3
            rcases List.mem_cons.mp h3 with h4 | h4
            · rw [h4]; exact chunkWellTagged_mkTextChunk ctx _ none
            · cases h4
          · rw [if_neg hb] at h3
            cases h3
      · exact firstFinishChunk_tagged ctx r.candidates ch h2
    · rw [if_neg ht] at hch
      rcases List.mem_append.mp hch with h2 | h2
      · exact processCands_tagged ctx r r.candidates acc ch h2
      · exact ih _ e ch h2

/-- C10 (witness): the first character chunk of a concrete two-character
stream carries the per-stream id, object tag and timestamp. -/
theorem streaming_chunk_identity_witness :
    chunkWellTagged sampleCtx (mkTextChunk sampleCtx ['h'] none) :=
  streaming_chunk_identity sampleCtx [sampleTextResponse] ⟨[], 0⟩ IterEnd.done
    (mkTextChunk sampleCtx ['h'] none) (by decide)

end GeminiProxy
